import Mathlib

/-!
Shallow embedding of `egs/heroico/asr/simple_v1/ctc_train.py`.

The script is glue around two external libraries (torch and k2/lhotse).
Everything the script itself computes is embedded here as executable Lean
functions; every call into the external libraries (the neural network, the
graph compiler, `k2.intersect_dense`, `get_tot_scores`, the dataloaders,
file IO) is an oracle parameter.  Conventions:

* floating point values are modelled by `ℚ`; the only infinity the script
  manipulates (`-math.inf` sentinels in forward-backward scores, the
  `float('inf')` / `np.inf` initial objectives) is modelled explicitly,
  by `Score` for the per-segment scores and by `WithTop ℚ` for objectives;
* integer frame counts (`int32` in the script, far from overflow) are `ℤ`;
* a per-batch result of `get_objf` is a triple `(objf, frames, all_frames)`
  in `ℚ × ℤ × ℤ`;
* the side effects of the script (checkpoint files, info files) are recorded
  as an event trace, so that persistence claims become membership and
  ordering facts about the trace.
-/

/-- A total forward-backward score of one supervision segment, as returned by
`target_graph.get_tot_scores` (line 113): either `-math.inf` (an unsuccessful
segment) or a finite log-probability. -/
inductive Score where
  | negInf : Score
  | fin : ℚ → Score
deriving DecidableEq, Repr

/-- The mask `torch.ne(tot_scores, -math.inf)` of line 49, per element. -/
def scoreIsFinite : Score → Bool
  | Score.negInf => false
  | Score.fin _ => true

/-- The rational value of a finite score (junk value `0` on `negInf`; it is
only ever applied to scores that passed the finiteness mask). -/
def Score.toQ : Score → ℚ
  | Score.negInf => 0
  | Score.fin q => q

/-- Lines 33-63 of the script (`get_tot_objf_and_num_frames`).  Both tensors
have one entry per supervision segment, so the mask / `nonzero` /
gather-and-sum of the script is expressed as a filter of the zipped lists:
`finite` holds the (score, frames) pairs of the segments whose total score is
not `-inf`; the result is (sum of the finite scores, frames of the finite
segments, frames of all segments). -/
def get_tot_objf_and_num_frames (tot_scores : List Score)
    (frames_per_seq : List ℤ) : ℚ × ℤ × ℤ :=
  let finite := (tot_scores.zip frames_per_seq).filter (fun p => scoreIsFinite p.1)
  ((finite.map (fun p => Score.toQ p.1)).sum,
   (finite.map (fun p => p.2)).sum,
   frames_per_seq.sum)

/-- The `supervisions` dict of one batch: parallel per-segment lists. -/
structure Supervisions where
  sequence_idx : List ℤ
  start_frame : List ℤ
  num_frames : List ℤ
  text : List String

/-- Lines 74-79: one row per segment,
`(sequence_idx, start_frame // subsampling_factor, num_frames // subsampling_factor)`;
`torch.floor_divide` on these nonnegative frame counts is floor division
`Int.fdiv`. -/
def supervision_segments (sub : ℤ) (s : Supervisions) : List (ℤ × ℤ × ℤ) :=
  List.zipWith (fun a bc => (a, bc)) s.sequence_idx
    (List.zipWith (fun b c => (Int.fdiv b sub, Int.fdiv c sub))
      s.start_frame s.num_frames)

/-- Insert an index into an index list kept in descending key order; the new
index goes after every index whose key is at least as large, so insertion in
increasing index order is stable. -/
def insertDescBy (key : ℕ → ℤ) (i : ℕ) : List ℕ → List ℕ
  | [] => [i]
  | j :: rest =>
      if key i ≤ key j then j :: insertDescBy key i rest else i :: j :: rest

/-- Descending stable argsort of `0, …, n-1` by `key`
(`torch.argsort(segments[:, 2], descending=True)`, line 80). -/
def argsortDesc (key : ℕ → ℤ) (n : ℕ) : List ℕ :=
  (List.range n).foldl (fun acc i => insertDescBy key i acc) []

/-- The permutation `indices` of line 80: segment indexes sorted by
decreasing subsampled frame count. -/
def segment_order (sub : ℤ) (s : Supervisions) : List ℕ :=
  let segs := supervision_segments sub s
  argsortDesc (fun i => (segs.getD i (0, 0, 0)).2.2) segs.length

/-- Line 81: `supervision_segments = supervision_segments[indices]`. -/
def sorted_supervision_segments (sub : ℤ) (s : Supervisions) : List (ℤ × ℤ × ℤ) :=
  (segment_order sub s).map (fun i => (supervision_segments sub s).getD i (0, 0, 0))

/-- Line 84: `texts = [texts[idx] for idx in indices]`. -/
def sorted_texts (sub : ℤ) (s : Supervisions) : List String :=
  (segment_order sub s).map (fun i => s.text.getD i "")

/-- Oracle for the external k2 / torch calls that `get_objf` makes, over
abstract graph (`G`) and dense-FSA-vector (`D`) types:
`compile` is `graph_compiler.compile(texts)` (line 100); `denseFsaVec`
folds the neural network forward pass and `k2.DenseFsaVec(nnet_output,
supervision_segments)` (lines 91-106); `intersect_dense` is
`k2.intersect_dense(decoding_graph, dense_fsa_vec, 10.0)` (line 111);
`get_tot_scores` is `target_graph.get_tot_scores(log_semiring=True,
use_double_scores=True)` (lines 113-115), one score per segment. -/
structure K2Oracle (G D : Type) where
  compile : List String → G
  denseFsaVec : List (ℤ × ℤ × ℤ) → D
  intersect_dense : G → D → G
  get_tot_scores : G → List Score

/-- Intermediate values of one `get_objf` call (lines 66-129), kept so that
which graphs enter the objective computation is observable:
`decoding_graphs` lists every graph built by the graph compiler that is fed
to the intersection. -/
structure ObjfTrace (G D : Type) where
  decoding_graphs : List G
  dense_fsa_vec : D
  target_graph : G
  tot_scores : List Score
  result : ℚ × ℤ × ℤ

/-- Lines 66-129 (`get_objf`), as a pipeline: build the sorted supervision
segments and texts, compile one decoding graph from the texts, intersect it
with the dense FSA vector of network outputs, take the total scores, reduce
them with `get_tot_objf_and_num_frames` against `supervision_segments[:, 2]`,
and return `(-tot_score, ok_frames, all_frames)`.  The `training` branch
(backward pass, gradient clipping, optimizer step, lines 121-125) mutates
only external state and does not affect the returned value, so it is not
modelled. -/
def get_objf_trace {G D : Type} (k : K2Oracle G D) (sub : ℤ)
    (s : Supervisions) : ObjfTrace G D :=
  let segs := sorted_supervision_segments sub s
  let decoding_graph := k.compile (sorted_texts sub s)
  let dense_fsa_vec := k.denseFsaVec segs
  let target_graph := k.intersect_dense decoding_graph dense_fsa_vec
  let tot_scores := k.get_tot_scores target_graph
  let r := get_tot_objf_and_num_frames tot_scores (segs.map (fun t => t.2.2))
  ⟨[decoding_graph], dense_fsa_vec, target_graph, tot_scores,
    (-r.1, r.2.1, r.2.2)⟩

/-- The value `get_objf` returns (lines 127-129). -/
def get_objf {G D : Type} (k : K2Oracle G D) (sub : ℤ)
    (s : Supervisions) : ℚ × ℤ × ℤ :=
  (get_objf_trace k sub s).result

/-- Lines 132-148 (`get_validation_objf`): starting from zeros, accumulate
the per-batch `(objf, frames, all_frames)` triples returned by `get_objf`
over the validation dataloader. -/
def get_validation_objf (batch_results : List (ℚ × ℤ × ℤ)) : ℚ × ℤ × ℤ :=
  batch_results.foldl
    (fun acc r => (acc.1 + r.1, acc.2.1 + r.2.1, acc.2.2 + r.2.2))
    (0, 0, 0)

/-- The local accumulator state of `train_one_epoch` (lines 160-162 and the
loop body): running totals, the last computed validation average (initially
`float('inf')`, i.e. `⊤`), and `global_batch_idx_train`. -/
structure EpochAccum where
  total_objf : ℚ
  total_frames : ℤ
  total_all_frames : ℤ
  valid_average_objf : WithTop ℚ
  global_batch_idx_train : ℕ
deriving DecidableEq

/-- One iteration of the batch loop of `train_one_epoch` (lines 166-218).
`p` is `(batch_idx, get_objf result)` from `enumerate(dataloader)`;
`validAt batch_idx` is the list of per-batch `get_objf` results the
validation dataloader would produce at that point (an oracle, since it
depends on the current model parameters).  Validation runs exactly when
`batch_idx > 0 and batch_idx % 200 == 0` (line 201) and overwrites
`valid_average_objf` with `total_valid_objf / total_valid_frames`
(line 207). -/
def train_step (validAt : ℕ → List (ℚ × ℤ × ℤ)) (st : EpochAccum)
    (p : ℕ × (ℚ × ℤ × ℤ)) : EpochAccum :=
  let st1 : EpochAccum :=
    { total_objf := st.total_objf + p.2.1
      total_frames := st.total_frames + p.2.2.1
      total_all_frames := st.total_all_frames + p.2.2.2
      valid_average_objf := st.valid_average_objf
      global_batch_idx_train := st.global_batch_idx_train + 1 }
  if 0 < p.1 ∧ p.1 % 200 = 0 then
    let v := get_validation_objf (validAt p.1)
    { st1 with valid_average_objf := ((v.1 / (v.2.1 : ℚ) : ℚ) : WithTop ℚ) }
  else st1

/-- The accumulator after the whole batch loop of `train_one_epoch`. -/
def train_one_epoch_accum (batch_results : List (ℚ × ℤ × ℤ))
    (validAt : ℕ → List (ℚ × ℤ × ℤ)) (gbi0 : ℕ) : EpochAccum :=
  batch_results.enum.foldl (train_step validAt)
    ⟨0, 0, 0, ⊤, gbi0⟩

/-- Line 219: `train_one_epoch` returns
`(total_objf / total_frames, valid_average_objf, global_batch_idx_train)`. -/
def train_one_epoch (batch_results : List (ℚ × ℤ × ℤ))
    (validAt : ℕ → List (ℚ × ℤ × ℤ)) (gbi0 : ℕ) : ℚ × WithTop ℚ × ℕ :=
  let st := train_one_epoch_accum batch_results validAt gbi0
  (st.total_objf / (st.total_frames : ℚ), st.valid_average_objf,
   st.global_batch_idx_train)

/-- Observable top-level actions of `main`, in particular every file the
epoch loop persists (`save_checkpoint` / `save_training_info` calls). -/
inductive MainEvent where
  | loadSymbolTables : MainEvent
  | buildGraphCompiler : MainEvent
  | buildDatasets : MainEvent
  | buildModelAndOptimizer : MainEvent
  | trainBatches : ℕ → MainEvent
  | saveBestCkpt : ℕ → MainEvent
  | saveBestInfo : ℕ → MainEvent
  | saveEpochCkpt : ℕ → MainEvent
  | saveEpochInfo : ℕ → MainEvent
deriving DecidableEq, Repr

/-- The best-epoch bookkeeping of `main` (lines 308-310): `best_objf` and
`best_valid_objf` start at `np.inf` (`⊤`), `best_epoch` at `start_epoch`. -/
structure LoopState where
  best_objf : WithTop ℚ
  best_valid_objf : WithTop ℚ
  best_epoch : ℕ
deriving DecidableEq, Repr

/-- Per-epoch training outcomes: `data e = (objf, valid_objf)` is what
`train_one_epoch` returns for epoch `e` (the training average is finite, the
validation average is `⊤` when validation never ran). -/
def EpochData : Type := ℕ → ℚ × WithTop ℚ

/-- State update of one epoch of the loop of `main` (lines 344-348): when
`valid_objf < best_valid_objf` the bests are replaced, otherwise they are
kept. -/
def epochStepState (data : EpochData) (e : ℕ) (st : LoopState) : LoopState :=
  if (data e).2 < st.best_valid_objf then
    { best_objf := ((data e).1 : WithTop ℚ),
      best_valid_objf := (data e).2,
      best_epoch := e }
  else st

/-- Events of one epoch of the loop of `main` (lines 334-389): the per-batch
objective computation of `train_one_epoch`, then — exactly when
`valid_objf < best_valid_objf` — `best_model.pt` and `best-epoch-info`
(lines 349-366), then unconditionally `epoch-{e}.pt` and `epoch-{e}-info`
(lines 368-389). -/
def epochBlock (data : EpochData) (e : ℕ) (st : LoopState) : List MainEvent :=
  MainEvent.trainBatches e ::
    ((if (data e).2 < st.best_valid_objf then
        [MainEvent.saveBestCkpt e, MainEvent.saveBestInfo e]
      else []) ++
     [MainEvent.saveEpochCkpt e, MainEvent.saveEpochInfo e])

/-- Events of the whole epoch loop over a list of epoch numbers. -/
def epochLoopEvents (data : EpochData) : List ℕ → LoopState → List MainEvent
  | [], _ => []
  | e :: rest, st =>
      epochBlock data e st ++ epochLoopEvents data rest (epochStepState data e st)

/-- The same events, one block per epoch. -/
def loopBlocks (data : EpochData) : List ℕ → LoopState → List (List MainEvent)
  | [], _ => []
  | e :: rest, st =>
      epochBlock data e st :: loopBlocks data rest (epochStepState data e st)

/-- The successive bookkeeping states of the epoch loop, initial state
included. -/
def loopStates (data : EpochData) : List ℕ → LoopState → List LoopState
  | [], st => [st]
  | e :: rest, st => st :: loopStates data rest (epochStepState data e st)

/-- The bookkeeping state just before the loop processes epoch `e` (junk —
the final state — when `e` is not in the list). -/
def state_before (data : EpochData) (e : ℕ) : List ℕ → LoopState → LoopState
  | [], st => st
  | f :: rest, st =>
      if f = e then st else state_before data e rest (epochStepState data f st)

/-- Line 226: `num_epochs = 8`. -/
def num_epochs : ℕ := 8

/-- Line 225: `start_epoch = 0`. -/
def start_epoch : ℕ := 0

/-- Line 298: the model is built with `subsampling_factor=4`. -/
def subsampling_factor : ℤ := 4

/-- Initial bookkeeping state of `main` (lines 308-310). -/
def mainInitState : LoopState := ⟨⊤, ⊤, start_epoch⟩

/-- The top-level flow of `main` (lines 222-391) as an event trace: load the
phone and word symbol tables and `L` (lines 233-244), build the
`CtcTrainingGraphCompiler` (lines 246-250), build datasets, samplers and
dataloaders (lines 253-286), build the model and the optimizer (lines
292-306), then run the epoch loop over `range(start_epoch, num_epochs)`
(lines 323-389). -/
def main_trace (data : EpochData) : List MainEvent :=
  [MainEvent.loadSymbolTables, MainEvent.buildGraphCompiler,
   MainEvent.buildDatasets, MainEvent.buildModelAndOptimizer] ++
    epochLoopEvents data (List.range' start_epoch (num_epochs - start_epoch))
      mainInitState

/-- Shape of the events one epoch contributes: first the per-batch objective
computation, optionally the two best-model files, then the two per-epoch
files. -/
def isEpochBlock (e : ℕ) (evs : List MainEvent) : Prop :=
  ∃ s : Bool,
    evs = MainEvent.trainBatches e ::
      ((if s then [MainEvent.saveBestCkpt e, MainEvent.saveBestInfo e]
        else []) ++
       [MainEvent.saveEpochCkpt e, MainEvent.saveEpochInfo e])

/-- Concrete two-segment batch used to instantiate theorems. -/
def exSupervisions : Supervisions :=
  ⟨[0, 1], [0, 0], [8, 4], ["hola", "adios"]⟩

/-- Concrete oracle over graphs `ℕ` and dense FSA vectors `Unit`, whose
forward-backward returns one finite and one `-inf` segment score. -/
def exOracle : K2Oracle ℕ Unit :=
  ⟨fun _ => 0, fun _ => (), fun g _ => g, fun _ => [Score.fin 2, Score.negInf]⟩

lemma map_fst_filter_zip (ts : List Score) (fs : List ℤ)
    (h : ts.length = fs.length) :
    ((ts.zip fs).filter (fun p => scoreIsFinite p.1)).map (fun p => Score.toQ p.1) =
      (ts.filter scoreIsFinite).map Score.toQ := by
  induction ts generalizing fs with
  | nil => simp
  | cons a l ih =>
    cases fs with
    | nil => simp at h
    | cons b m =>
      have h' : l.length = m.length := by simpa using h
      by_cases ha : scoreIsFinite a <;>
        simp [List.filter_cons, ha, ih m h']

lemma sum_range_filter (ts : List Score) :
    ((ts.filter scoreIsFinite).map Score.toQ).sum =
      (((List.range ts.length).filter fun i => scoreIsFinite (ts.getD i Score.negInf)).map
        fun i => Score.toQ (ts.getD i Score.negInf)).sum := by
  induction ts with
  | nil => simp
  | cons a l ih =>
    by_cases ha : scoreIsFinite a <;>
      simp [List.range_succ_eq_map, List.filter_cons, ha, List.filter_map,
        List.map_map, Function.comp_def, List.getElem?_cons_succ, ih]

lemma snd_range_filter (ts : List Score) (fs : List ℤ)
    (h : ts.length = fs.length) :
    (((ts.zip fs).filter fun p => scoreIsFinite p.1).map fun p => p.2).sum =
      (((List.range ts.length).filter fun i => scoreIsFinite (ts.getD i Score.negInf)).map
        fun i => fs.getD i 0).sum := by
  induction ts generalizing fs with
  | nil => simp
  | cons a l ih =>
    cases fs with
    | nil => simp at h
    | cons b m =>
      have h' : l.length = m.length := by simpa using h
      by_cases ha : scoreIsFinite a <;>
        simp [List.filter_cons, ha, List.range_succ_eq_map, List.filter_map,
          List.map_map, Function.comp_def, List.getElem?_cons_succ, ih m h']

lemma gtonf_all_finite (ts : List Score) (fs : List ℤ)
    (h : ts.length = fs.length) (hfin : ∀ x ∈ ts, scoreIsFinite x) :
    (get_tot_objf_and_num_frames ts fs).1 = (ts.map Score.toQ).sum ∧
    (get_tot_objf_and_num_frames ts fs).2.1 = fs.sum := by
  induction ts generalizing fs with
  | nil =>
    cases fs with
    | nil => simp [get_tot_objf_and_num_frames]
    | cons b m => simp at h
  | cons a l ih =>
    cases fs with
    | nil => simp at h
    | cons b m =>
      have h' : l.length = m.length := by simpa using h
      have ha : scoreIsFinite a := hfin a (List.mem_cons_self a l)
      have hfin' : ∀ x ∈ l, scoreIsFinite x :=
        fun x hx => hfin x (List.mem_cons_of_mem a hx)
      have := ih m h' hfin'
      simp only [get_tot_objf_and_num_frames] at this ⊢
      simp [List.filter_cons, ha, this.1, this.2]

/-- Claim C6: for equally long score and frame tensors,
`get_tot_objf_and_num_frames` returns the sum of the scores over exactly the
indices whose score is not `-inf`, the sum of the frames over those same
indices, and the sum of all frames; when no score is `-inf` the first
component is the full score sum and the kept frames equal all frames. -/
theorem claim_C6_get_tot_objf_and_num_frames_masked_sums
    (ts : List Score) (fs : List ℤ) (h : ts.length = fs.length) :
    get_tot_objf_and_num_frames ts fs =
      ((((List.range ts.length).filter fun i =>
            scoreIsFinite (ts.getD i Score.negInf)).map
          fun i => Score.toQ (ts.getD i Score.negInf)).sum,
       (((List.range ts.length).filter fun i =>
            scoreIsFinite (ts.getD i Score.negInf)).map
          fun i => fs.getD i 0).sum,
       fs.sum) ∧
    ((∀ x ∈ ts, scoreIsFinite x) →
      (get_tot_objf_and_num_frames ts fs).1 = (ts.map Score.toQ).sum ∧
      (get_tot_objf_and_num_frames ts fs).2.1 = fs.sum) := by
  constructor
  · have h1 := map_fst_filter_zip ts fs h
    have h2 := snd_range_filter ts fs h
    simp only [get_tot_objf_and_num_frames]
    rw [h1, sum_range_filter, h2]
  · exact gtonf_all_finite ts fs h

/-- Witness for C6 at a concrete pair of tensors. -/
theorem claim_C6_get_tot_objf_and_num_frames_masked_sums_witness :
    [Score.fin 2, Score.negInf].length = ([3, 4] : List ℤ).length ∧
    (get_tot_objf_and_num_frames [Score.fin 2, Score.negInf] [3, 4] =
      ((((List.range [Score.fin 2, Score.negInf].length).filter fun i =>
            scoreIsFinite ([Score.fin 2, Score.negInf].getD i Score.negInf)).map
          fun i => Score.toQ ([Score.fin 2, Score.negInf].getD i Score.negInf)).sum,
       (((List.range [Score.fin 2, Score.negInf].length).filter fun i =>
            scoreIsFinite ([Score.fin 2, Score.negInf].getD i Score.negInf)).map
          fun i => ([3, 4] : List ℤ).getD i 0).sum,
       ([3, 4] : List ℤ).sum) ∧
    ((∀ x ∈ [Score.fin 2, Score.negInf], scoreIsFinite x) →
      (get_tot_objf_and_num_frames [Score.fin 2, Score.negInf] [3, 4]).1 =
        ([Score.fin 2, Score.negInf].map Score.toQ).sum ∧
      (get_tot_objf_and_num_frames [Score.fin 2, Score.negInf] [3, 4]).2.1 =
        ([3, 4] : List ℤ).sum)) :=
  ⟨by decide,
   claim_C6_get_tot_objf_and_num_frames_masked_sums
     [Score.fin 2, Score.negInf] [3, 4] (by decide)⟩

/-- Claim C1: for every batch, the objective value `get_objf` returns is the
negation of the total forward-backward log score, the total being the sum of
the per-segment total scores over the segments whose score is finite. -/
theorem claim_C1_get_objf_negated_total_score
    {G D : Type} (k : K2Oracle G D) (sub : ℤ) (s : Supervisions)
    (h : (get_objf_trace k sub s).tot_scores.length =
      (sorted_supervision_segments sub s).length) :
    (get_objf k sub s).1 =
      -(((get_objf_trace k sub s).tot_scores.filter scoreIsFinite).map
          Score.toQ).sum := by
  simp only [get_objf, get_objf_trace] at h ⊢
  have hlen : (k.get_tot_scores
      (k.intersect_dense (k.compile (sorted_texts sub s))
        (k.denseFsaVec (sorted_supervision_segments sub s)))).length =
      ((sorted_supervision_segments sub s).map (fun t => t.2.2)).length := by
    simpa using h
  simp only [get_tot_objf_and_num_frames]
  rw [map_fst_filter_zip _ _ hlen]

/-- Witness for C1 at a concrete oracle and batch. -/
theorem claim_C1_get_objf_negated_total_score_witness :
    (get_objf_trace exOracle subsampling_factor exSupervisions).tot_scores.length =
      (sorted_supervision_segments subsampling_factor exSupervisions).length ∧
    (get_objf exOracle subsampling_factor exSupervisions).1 =
      -(((get_objf_trace exOracle subsampling_factor
            exSupervisions).tot_scores.filter scoreIsFinite).map
          Score.toQ).sum :=
  ⟨by decide,
   claim_C1_get_objf_negated_total_score exOracle subsampling_factor
     exSupervisions (by decide)⟩

/-- Counterexample to claim C2 as stated: at a concrete batch and oracle,
exactly one decoding graph built by the graph compiler enters the objective
computation, so it is not the case that both a denominator graph and a
numerator graph (two graphs) enter it. -/
theorem claim_C2_counterexample_single_decoding_graph :
    (get_objf_trace exOracle subsampling_factor
        exSupervisions).decoding_graphs.length = 1 ∧
    ¬ 2 ≤ (get_objf_trace exOracle subsampling_factor
        exSupervisions).decoding_graphs.length := by
  decide

/-- Claim C2 (amended): for every training batch, the graph compiler builds
exactly one decoding graph — compiled from the batch's (reordered)
transcripts — and the objective computation intersects that single graph
with the dense FSA vector of network outputs; no separate denominator graph
is built. -/
theorem claim_C2_amended_one_decoding_graph_enters
    {G D : Type} (k : K2Oracle G D) (sub : ℤ) (s : Supervisions) :
    (get_objf_trace k sub s).decoding_graphs =
      [k.compile (sorted_texts sub s)] ∧
    (get_objf_trace k sub s).target_graph =
      k.intersect_dense (k.compile (sorted_texts sub s))
        (k.denseFsaVec (sorted_supervision_segments sub s)) ∧
    (get_objf_trace k sub s).decoding_graphs.length = 1 :=
  ⟨rfl, rfl, rfl⟩

lemma triple_foldl_sums (rs : List (ℚ × ℤ × ℤ)) (a : ℚ × ℤ × ℤ) :
    rs.foldl (fun acc r => (acc.1 + r.1, acc.2.1 + r.2.1, acc.2.2 + r.2.2)) a =
      (a.1 + (rs.map fun r => r.1).sum,
       a.2.1 + (rs.map fun r => r.2.1).sum,
       a.2.2 + (rs.map fun r => r.2.2).sum) := by
  induction rs generalizing a with
  | nil => simp
  | cons r l ih => simp [ih, add_assoc]

lemma train_step_totals (v : ℕ → List (ℚ × ℤ × ℤ)) (st : EpochAccum)
    (p : ℕ × (ℚ × ℤ × ℤ)) :
    (train_step v st p).total_objf = st.total_objf + p.2.1 ∧
    (train_step v st p).total_frames = st.total_frames + p.2.2.1 ∧
    (train_step v st p).total_all_frames = st.total_all_frames + p.2.2.2 := by
  simp only [train_step]
  split <;> simp

lemma train_foldl_totals (v : ℕ → List (ℚ × ℤ × ℤ)) (l : List (ℚ × ℤ × ℤ)) :
    ∀ (k : ℕ) (st : EpochAccum),
      ((l.enumFrom k).foldl (train_step v) st).total_objf =
        st.total_objf + (l.map fun r => r.1).sum ∧
      ((l.enumFrom k).foldl (train_step v) st).total_frames =
        st.total_frames + (l.map fun r => r.2.1).sum ∧
      ((l.enumFrom k).foldl (train_step v) st).total_all_frames =
        st.total_all_frames + (l.map fun r => r.2.2).sum := by
  induction l with
  | nil => intro k st; simp [List.enumFrom]
  | cons r l ih =>
    intro k st
    have hstep := train_step_totals v st (k, r)
    have hrest := ih (k + 1) (train_step v st (k, r))
    simp only [List.enumFrom, List.foldl_cons]
    rw [hrest.1, hrest.2.1, hrest.2.2, hstep.1, hstep.2.1, hstep.2.2]
    simp [add_assoc]

/-- Claim C5: the training bookkeeping is pure arithmetic accumulation:
after any sequence of batches, the totals held by `train_one_epoch` and the
triple returned by `get_validation_objf` are exactly the componentwise sums,
starting from zero, of the per-batch values returned by `get_objf`. -/
theorem claim_C5_bookkeeping_is_summation
    (batch_results : List (ℚ × ℤ × ℤ)) (validAt : ℕ → List (ℚ × ℤ × ℤ))
    (gbi0 : ℕ) :
    (train_one_epoch_accum batch_results validAt gbi0).total_objf =
      (batch_results.map fun r => r.1).sum ∧
    (train_one_epoch_accum batch_results validAt gbi0).total_frames =
      (batch_results.map fun r => r.2.1).sum ∧
    (train_one_epoch_accum batch_results validAt gbi0).total_all_frames =
      (batch_results.map fun r => r.2.2).sum ∧
    get_validation_objf batch_results =
      ((batch_results.map fun r => r.1).sum,
       (batch_results.map fun r => r.2.1).sum,
       (batch_results.map fun r => r.2.2).sum) := by
  have h := train_foldl_totals validAt batch_results 0 ⟨0, 0, 0, ⊤, gbi0⟩
  have hv := triple_foldl_sums batch_results (0, 0, 0)
  refine ⟨?_, ?_, ?_, ?_⟩
  · simpa [train_one_epoch_accum, List.enum] using h.1
  · simpa [train_one_epoch_accum, List.enum] using h.2.1
  · simpa [train_one_epoch_accum, List.enum] using h.2.2
  · simpa [get_validation_objf] using hv

lemma train_foldl_no_trigger (v w : ℕ → List (ℚ × ℤ × ℤ))
    (l : List (ℚ × ℤ × ℤ)) :
    ∀ (k : ℕ) (st : EpochAccum), k + l.length ≤ 200 →
      (l.enumFrom k).foldl (train_step v) st =
        (l.enumFrom k).foldl (train_step w) st ∧
      ((l.enumFrom k).foldl (train_step v) st).valid_average_objf =
        st.valid_average_objf := by
  induction l with
  | nil => intro k st _; simp [List.enumFrom]
  | cons r l ih =>
    intro k st hk
    have hcond : ¬(0 < k ∧ k % 200 = 0) := by
      rintro ⟨hpos, hmod⟩
      have hklt : k < 200 := by
        simp only [List.length_cons] at hk
        omega
      rw [Nat.mod_eq_of_lt hklt] at hmod
      omega
    have hk' : k + 1 + l.length ≤ 200 := by
      simp only [List.length_cons] at hk
      omega
    have hstep : train_step v st (k, r) = train_step w st (k, r) := by
      simp [train_step, hcond]
    have hval : (train_step v st (k, r)).valid_average_objf =
        st.valid_average_objf := by
      simp [train_step, hcond]
    obtain ⟨ih1, ih2⟩ := ih (k + 1) (train_step v st (k, r)) hk'
    simp only [List.enumFrom, List.foldl_cons]
    exact ⟨by rw [ih1, hstep], by rw [ih2, hval]⟩

/-- Claim C8: when the training dataloader yields at most 200 batches,
validation is never executed during the epoch (the result of
`train_one_epoch` does not depend on the validation oracle at all), the
returned `valid_average_objf` is the initial `float('inf')`, and the epoch
neither writes the best-model files nor updates the best bookkeeping. -/
theorem claim_C8_no_validation_within_200_batches
    (batch_results : List (ℚ × ℤ × ℤ))
    (validAt validAt' : ℕ → List (ℚ × ℤ × ℤ)) (gbi0 : ℕ)
    (data : EpochData) (e : ℕ) (st : LoopState)
    (h : batch_results.length ≤ 200)
    (hd : (data e).2 = (train_one_epoch batch_results validAt gbi0).2.1) :
    train_one_epoch batch_results validAt gbi0 =
      train_one_epoch batch_results validAt' gbi0 ∧
    (train_one_epoch batch_results validAt gbi0).2.1 = ⊤ ∧
    MainEvent.saveBestCkpt e ∉ epochBlock data e st ∧
    MainEvent.saveBestInfo e ∉ epochBlock data e st ∧
    epochStepState data e st = st := by
  obtain ⟨h1, h2⟩ := train_foldl_no_trigger validAt validAt' batch_results 0
    ⟨0, 0, 0, ⊤, gbi0⟩ (by simpa using h)
  have haccum : train_one_epoch_accum batch_results validAt gbi0 =
      train_one_epoch_accum batch_results validAt' gbi0 := by
    simpa [train_one_epoch_accum, List.enum] using h1
  have hvalid : (train_one_epoch batch_results validAt gbi0).2.1 = ⊤ := by
    simpa [train_one_epoch, train_one_epoch_accum, List.enum] using h2
  have htop : (data e).2 = ⊤ := hd.trans hvalid
  have hnlt : ¬((data e).2 < st.best_valid_objf) := by
    rw [htop]
    exact not_top_lt
  refine ⟨?_, hvalid, ?_, ?_, ?_⟩
  · simp [train_one_epoch, haccum]
  · simp [epochBlock, hnlt]
  · simp [epochBlock, hnlt]
  · simp [epochStepState, hnlt]

/-- Witness for C8 at a concrete epoch with fewer than 200 batches. -/
theorem claim_C8_no_validation_within_200_batches_witness :
    ([((1 : ℚ), (2 : ℤ), (3 : ℤ))].length ≤ 200 ∧
      ((fun _ : ℕ => ((0 : ℚ),
          (train_one_epoch [((1 : ℚ), (2 : ℤ), (3 : ℤ))] (fun _ => [])
            0).2.1)) 0).2 =
        (train_one_epoch [((1 : ℚ), (2 : ℤ), (3 : ℤ))] (fun _ => []) 0).2.1) ∧
    (train_one_epoch [((1 : ℚ), (2 : ℤ), (3 : ℤ))] (fun _ => []) 0 =
      train_one_epoch [((1 : ℚ), (2 : ℤ), (3 : ℤ))] (fun _ => [(5, 6, 7)]) 0 ∧
    (train_one_epoch [((1 : ℚ), (2 : ℤ), (3 : ℤ))] (fun _ => []) 0).2.1 = ⊤ ∧
    MainEvent.saveBestCkpt 0 ∉
      epochBlock (fun _ : ℕ => ((0 : ℚ),
        (train_one_epoch [((1 : ℚ), (2 : ℤ), (3 : ℤ))] (fun _ => []) 0).2.1))
        0 mainInitState ∧
    MainEvent.saveBestInfo 0 ∉
      epochBlock (fun _ : ℕ => ((0 : ℚ),
        (train_one_epoch [((1 : ℚ), (2 : ℤ), (3 : ℤ))] (fun _ => []) 0).2.1))
        0 mainInitState ∧
    epochStepState (fun _ : ℕ => ((0 : ℚ),
        (train_one_epoch [((1 : ℚ), (2 : ℤ), (3 : ℤ))] (fun _ => []) 0).2.1))
        0 mainInitState = mainInitState) :=
  ⟨⟨by decide, rfl⟩,
   claim_C8_no_validation_within_200_batches
     [((1 : ℚ), (2 : ℤ), (3 : ℤ))] (fun _ => []) (fun _ => [(5, 6, 7)]) 0
     (fun _ : ℕ => ((0 : ℚ),
       (train_one_epoch [((1 : ℚ), (2 : ℤ), (3 : ℤ))] (fun _ => []) 0).2.1))
     0 mainInitState (by decide) rfl⟩

lemma epoch_files_in_block (data : EpochData) (e : ℕ) (st : LoopState) :
    MainEvent.saveEpochCkpt e ∈ epochBlock data e st ∧
    MainEvent.saveEpochInfo e ∈ epochBlock data e st := by
  constructor <;>
    · simp only [epochBlock, List.mem_cons, List.mem_append]
      simp

lemma epoch_files_in_loop (data : EpochData) (e : ℕ) :
    ∀ (epochs : List ℕ) (st : LoopState), e ∈ epochs →
      MainEvent.saveEpochCkpt e ∈ epochLoopEvents data epochs st ∧
      MainEvent.saveEpochInfo e ∈ epochLoopEvents data epochs st := by
  intro epochs
  induction epochs with
  | nil => intro st he; cases he
  | cons f rest ih =>
    intro st he
    simp only [epochLoopEvents, List.mem_append]
    rcases List.mem_cons.mp he with rfl | hmem
    · exact ⟨Or.inl (epoch_files_in_block data e st).1,
        Or.inl (epoch_files_in_block data e st).2⟩
    · obtain ⟨h1, h2⟩ := ih (epochStepState data f st) hmem
      exact ⟨Or.inr h1, Or.inr h2⟩

/-- Claim C3: for every run of the epoch loop (any per-epoch training
outcomes `data`), after each epoch the per-epoch checkpoint and the
per-epoch info file are persisted unconditionally. -/
theorem claim_C3_epoch_files_always_saved (data : EpochData) (e : ℕ)
    (h : e < num_epochs) :
    MainEvent.saveEpochCkpt e ∈ main_trace data ∧
    MainEvent.saveEpochInfo e ∈ main_trace data := by
  have hmem : e ∈ List.range' start_epoch (num_epochs - start_epoch) := by
    rw [show num_epochs - start_epoch = 8 from rfl,
      show start_epoch = 0 from rfl, ← List.range_eq_range']
    exact List.mem_range.mpr h
  obtain ⟨h1, h2⟩ := epoch_files_in_loop data e
    (List.range' start_epoch (num_epochs - start_epoch)) mainInitState hmem
  constructor <;>
    · simp only [main_trace, List.mem_append, List.mem_cons]
      tauto

/-- Witness for C3 at epoch 0 and a concrete run. -/
theorem claim_C3_epoch_files_always_saved_witness :
    (0 < num_epochs) ∧
    MainEvent.saveEpochCkpt 0 ∈
      main_trace (fun _ => ((0 : ℚ), ((0 : ℚ) : WithTop ℚ))) ∧
    MainEvent.saveEpochInfo 0 ∈
      main_trace (fun _ => ((0 : ℚ), ((0 : ℚ) : WithTop ℚ))) :=
  ⟨by decide,
   (claim_C3_epoch_files_always_saved
     (fun _ => ((0 : ℚ), ((0 : ℚ) : WithTop ℚ))) 0 (by decide)).1,
   (claim_C3_epoch_files_always_saved
     (fun _ => ((0 : ℚ), ((0 : ℚ) : WithTop ℚ))) 0 (by decide)).2⟩

lemma epochLoopEvents_eq_join (data : EpochData) :
    ∀ (epochs : List ℕ) (st : LoopState),
      epochLoopEvents data epochs st = (loopBlocks data epochs st).flatten := by
  intro epochs
  induction epochs with
  | nil => intro st; rfl
  | cons f rest ih =>
    intro st
    simp [epochLoopEvents, loopBlocks, ih]

lemma loopBlocks_length (data : EpochData) :
    ∀ (epochs : List ℕ) (st : LoopState),
      (loopBlocks data epochs st).length = epochs.length := by
  intro epochs
  induction epochs with
  | nil => intro st; rfl
  | cons f rest ih => intro st; simp [loopBlocks, ih]

lemma loopBlocks_shape (data : EpochData) :
    ∀ (epochs : List ℕ) (st : LoopState) (i : ℕ), i < epochs.length →
      isEpochBlock (epochs.getD i 0) ((loopBlocks data epochs st).getD i []) := by
  intro epochs
  induction epochs with
  | nil => intro st i hi; cases hi
  | cons f rest ih =>
    intro st i hi
    cases i with
    | zero =>
      by_cases hc : (data f).2 < st.best_valid_objf
      · exact ⟨true, by simp [loopBlocks, epochBlock, hc]⟩
      · exact ⟨false, by simp [loopBlocks, epochBlock, hc]⟩
    | succ j =>
      have hj : j < rest.length := by simpa using hi
      simpa [loopBlocks] using ih (epochStepState data f st) j hj

lemma range'_zero_getD : ∀ (n i : ℕ) (s : ℕ), i < n →
    (List.range' s n).getD i 0 = s + i := by
  intro n
  induction n with
  | zero => intro i s hi; cases hi
  | succ m ih =>
    intro i s hi
    cases i with
    | zero => simp [List.range']
    | succ j =>
      have hj : j < m := by omega
      have := ih j (s + 1) hj
      simp only [List.range', List.getD_cons_succ]
      rw [this]
      omega

/-- Claim C4: `main` is a single linear flow: its trace starts with loading
the symbol tables, building the graph compiler, building the
datasets/samplers/dataloaders and building the model and optimizer, in this
exact order, and the rest of the trace is exactly the epoch loop over epochs
`0, …, num_epochs - 1` in order — one block per epoch, each block running
the per-batch objective computation first and ending with the checkpoint
files of that epoch. -/
theorem claim_C4_main_linear_flow (data : EpochData) (i : ℕ)
    (h : i < num_epochs) :
    (main_trace data).take 4 =
      [MainEvent.loadSymbolTables, MainEvent.buildGraphCompiler,
       MainEvent.buildDatasets, MainEvent.buildModelAndOptimizer] ∧
    (main_trace data).drop 4 =
      (loopBlocks data (List.range' start_epoch (num_epochs - start_epoch))
        mainInitState).flatten ∧
    (loopBlocks data (List.range' start_epoch (num_epochs - start_epoch))
        mainInitState).length = num_epochs ∧
    isEpochBlock i
      ((loopBlocks data (List.range' start_epoch (num_epochs - start_epoch))
        mainInitState).getD i []) := by
  refine ⟨?_, ?_, ?_, ?_⟩
  · rfl
  · simp [main_trace, epochLoopEvents_eq_join]
  · rw [loopBlocks_length]
    simp [List.length_range', num_epochs, start_epoch]
  · have hlen : i < (List.range' start_epoch (num_epochs - start_epoch)).length := by
      simpa [List.length_range', num_epochs, start_epoch] using h
    have hshape := loopBlocks_shape data
      (List.range' start_epoch (num_epochs - start_epoch)) mainInitState i hlen
    have hget : (List.range' start_epoch (num_epochs - start_epoch)).getD i 0 = i := by
      rw [range'_zero_getD (num_epochs - start_epoch) i start_epoch
        (by simpa [num_epochs, start_epoch] using h)]
      simp [start_epoch]
    rwa [hget] at hshape

/-- Witness for C4 at a concrete run and epoch 0. -/
theorem claim_C4_main_linear_flow_witness :
    (0 < num_epochs) ∧
    ((main_trace (fun _ => ((0 : ℚ), ((0 : ℚ) : WithTop ℚ)))).take 4 =
      [MainEvent.loadSymbolTables, MainEvent.buildGraphCompiler,
       MainEvent.buildDatasets, MainEvent.buildModelAndOptimizer] ∧
    (main_trace (fun _ => ((0 : ℚ), ((0 : ℚ) : WithTop ℚ)))).drop 4 =
      (loopBlocks (fun _ => ((0 : ℚ), ((0 : ℚ) : WithTop ℚ)))
        (List.range' start_epoch (num_epochs - start_epoch))
        mainInitState).flatten ∧
    (loopBlocks (fun _ => ((0 : ℚ), ((0 : ℚ) : WithTop ℚ)))
        (List.range' start_epoch (num_epochs - start_epoch))
        mainInitState).length = num_epochs ∧
    isEpochBlock 0
      ((loopBlocks (fun _ => ((0 : ℚ), ((0 : ℚ) : WithTop ℚ)))
        (List.range' start_epoch (num_epochs - start_epoch))
        mainInitState).getD 0 [])) :=
  ⟨by decide,
   claim_C4_main_linear_flow (fun _ => ((0 : ℚ), ((0 : ℚ) : WithTop ℚ))) 0
     (by decide)⟩

lemma epochStepState_bvo_le (data : EpochData) (e : ℕ) (st : LoopState) :
    (epochStepState data e st).best_valid_objf ≤ st.best_valid_objf := by
  simp only [epochStepState]
  split
  · exact le_of_lt (by assumption)
  · exact le_rfl

lemma loopStates_head (data : EpochData) (epochs : List ℕ) (st : LoopState) :
    (loopStates data epochs st).head? = some st := by
  cases epochs <;> rfl

lemma loopStates_chain (data : EpochData) :
    ∀ (epochs : List ℕ) (st : LoopState),
      List.Chain' (fun a b => b.best_valid_objf ≤ a.best_valid_objf)
        (loopStates data epochs st) := by
  intro epochs
  induction epochs with
  | nil => intro st; simp [loopStates]
  | cons f rest ih =>
    intro st
    rw [loopStates, List.chain'_cons']
    refine ⟨?_, ih (epochStepState data f st)⟩
    intro x hx
    rw [loopStates_head] at hx
    cases hx
    exact epochStepState_bvo_le data f st

lemma saveBest_mem_block (data : EpochData) (e f : ℕ) (st : LoopState) :
    (MainEvent.saveBestCkpt e ∈ epochBlock data f st ↔
      (e = f ∧ (data f).2 < st.best_valid_objf)) ∧
    (MainEvent.saveBestInfo e ∈ epochBlock data f st ↔
      (e = f ∧ (data f).2 < st.best_valid_objf)) := by
  by_cases hc : (data f).2 < st.best_valid_objf <;>
    constructor <;> simp [epochBlock, hc]

lemma saveBest_not_in_loop (data : EpochData) (e : ℕ) :
    ∀ (epochs : List ℕ) (st : LoopState), e ∉ epochs →
      MainEvent.saveBestCkpt e ∉ epochLoopEvents data epochs st ∧
      MainEvent.saveBestInfo e ∉ epochLoopEvents data epochs st := by
  intro epochs
  induction epochs with
  | nil => intro st _; simp [epochLoopEvents]
  | cons f rest ih =>
    intro st he
    have hef : e ≠ f := fun hh => he (hh ▸ List.mem_cons_self f rest)
    have herest : e ∉ rest := fun hh => he (List.mem_cons_of_mem f hh)
    obtain ⟨ih1, ih2⟩ := ih (epochStepState data f st) herest
    simp only [epochLoopEvents, List.mem_append]
    constructor <;> rintro (hb | hr)
    · exact hef ((saveBest_mem_block data e f st).1.mp hb).1
    · exact ih1 hr
    · exact hef ((saveBest_mem_block data e f st).2.mp hb).1
    · exact ih2 hr

lemma saveBest_iff_improved (data : EpochData) (e : ℕ) :
    ∀ (epochs : List ℕ) (st : LoopState), epochs.Nodup → e ∈ epochs →
      ((MainEvent.saveBestCkpt e ∈ epochLoopEvents data epochs st ∧
        MainEvent.saveBestInfo e ∈ epochLoopEvents data epochs st) ↔
        (data e).2 < (state_before data e epochs st).best_valid_objf) := by
  intro epochs
  induction epochs with
  | nil => intro st _ he; cases he
  | cons f rest ih =>
    intro st hnd he
    have hnd' : rest.Nodup := (List.nodup_cons.mp hnd).2
    by_cases hef : e = f
    · subst hef
      have herest : e ∉ rest := (List.nodup_cons.mp hnd).1
      have hnotr := saveBest_not_in_loop data e rest (epochStepState data e st)
        herest
      have hsb : state_before data e (e :: rest) st = st := by
        simp [state_before]
      rw [hsb]
      simp only [epochLoopEvents, List.mem_append]
      constructor
      · rintro ⟨h1 | h1, _⟩
        · exact ((saveBest_mem_block data e e st).1.mp h1).2
        · exact absurd h1 hnotr.1
      · intro hlt
        exact ⟨Or.inl ((saveBest_mem_block data e e st).1.mpr ⟨rfl, hlt⟩),
          Or.inl ((saveBest_mem_block data e e st).2.mpr ⟨rfl, hlt⟩)⟩
    · have hmem : e ∈ rest := by
        rcases List.mem_cons.mp he with hh | hh
        · exact absurd hh hef
        · exact hh
      have hfe : ¬(f = e) := fun hh => hef hh.symm
      have hsb : state_before data e (f :: rest) st =
          state_before data e rest (epochStepState data f st) := by
        simp [state_before, hfe]
      rw [hsb]
      have hblock1 : MainEvent.saveBestCkpt e ∉ epochBlock data f st :=
        fun hb => hef ((saveBest_mem_block data e f st).1.mp hb).1
      have hblock2 : MainEvent.saveBestInfo e ∉ epochBlock data f st :=
        fun hb => hef ((saveBest_mem_block data e f st).2.mp hb).1
      have := ih (epochStepState data f st) hnd' hmem
      simp only [epochLoopEvents, List.mem_append]
      constructor
      · rintro ⟨h1 | h1, h2 | h2⟩
        · exact absurd h1 hblock1
        · exact absurd h1 hblock1
        · exact absurd h2 hblock2
        · exact this.mp ⟨h1, h2⟩
      · intro hlt
        obtain ⟨h1, h2⟩ := this.mpr hlt
        exact ⟨Or.inr h1, Or.inr h2⟩

/-- Claim C7: across the epoch loop `best_valid_objf` is monotonically
non-increasing, and the best-model checkpoint together with the best-epoch
info file is written in an epoch exactly when that epoch's validation
objective is strictly below the best seen so far. -/
theorem claim_C7_best_valid_objf_tracking (data : EpochData)
    (epochs : List ℕ) (st : LoopState) (e : ℕ)
    (hnd : epochs.Nodup) (he : e ∈ epochs) :
    List.Chain' (fun a b => b.best_valid_objf ≤ a.best_valid_objf)
      (loopStates data epochs st) ∧
    ((MainEvent.saveBestCkpt e ∈ epochLoopEvents data epochs st ∧
      MainEvent.saveBestInfo e ∈ epochLoopEvents data epochs st) ↔
      (data e).2 < (state_before data e epochs st).best_valid_objf) :=
  ⟨loopStates_chain data epochs st,
   saveBest_iff_improved data e epochs st hnd he⟩

/-- Witness for C7 at a concrete two-epoch run. -/
theorem claim_C7_best_valid_objf_tracking_witness :
    (([0, 1] : List ℕ).Nodup ∧ (0 : ℕ) ∈ ([0, 1] : List ℕ)) ∧
    (List.Chain' (fun a b => b.best_valid_objf ≤ a.best_valid_objf)
      (loopStates (fun _ => ((0 : ℚ), ((0 : ℚ) : WithTop ℚ))) [0, 1]
        mainInitState) ∧
    ((MainEvent.saveBestCkpt 0 ∈
        epochLoopEvents (fun _ => ((0 : ℚ), ((0 : ℚ) : WithTop ℚ))) [0, 1]
          mainInitState ∧
      MainEvent.saveBestInfo 0 ∈
        epochLoopEvents (fun _ => ((0 : ℚ), ((0 : ℚ) : WithTop ℚ))) [0, 1]
          mainInitState) ↔
      ((fun _ => ((0 : ℚ), ((0 : ℚ) : WithTop ℚ))) 0).2 <
        (state_before (fun _ => ((0 : ℚ), ((0 : ℚ) : WithTop ℚ))) 0 [0, 1]
          mainInitState).best_valid_objf)) :=
  ⟨⟨by decide, by decide⟩,
   claim_C7_best_valid_objf_tracking
     (fun _ => ((0 : ℚ), ((0 : ℚ) : WithTop ℚ))) [0, 1] mainInitState 0
     (by decide) (by decide)⟩
